import Mathlib

/-!
Verification of the event-driven-pipeline core (event bus, staged pipeline,
transformation stream, stream-processing driver) against its design document.

The Python source is shallowly embedded:
  * handlers / processors / conditions / sinks are arbitrary callables with
    side effects that may raise; they are embedded as functions
    `input → σ → σ × Except ε result` over an abstract world state `σ`,
    with `Except.error` standing for a raised exception;
  * `await`-ing an asynchronous callable suspends until it resolves before the
    next call, so in the single-threaded cooperative model of the design both
    synchronous and asynchronous invocation are one sequential call —
    sequential state threading is the embedding of "fully completes before the
    next is invoked";
  * a Python `dict` keyed by strings is an association list with unique keys;
  * a `Source` is embedded by the list of items it yields, in order
    (the canonical `ListSource` holds exactly such a list).
-/

namespace EDP

/-- Priority levels of `event.EventPriority` (advisory only; the bus never
inspects them). -/
inductive EventPriority where
  | LOW
  | NORMAL
  | HIGH
  | CRITICAL
deriving DecidableEq

/-- The `Event` dataclass of `event.py`: a routing tag `event_type`, an opaque
payload `data` (type parameter `δ`), a creation `timestamp` (modelled as an
abstract instant), an origin label `source`, an advisory `priority`, and
auxiliary `metadata`. -/
structure Event (δ : Type) where
  event_type : String
  data : δ
  timestamp : Nat := 0
  source : String := ""
  priority : EventPriority := EventPriority.NORMAL
  metadata : List (String × String) := []

/-- A subscribed handler: a callable taking the event, acting on the world
state `σ`, and either returning a result `ρ` or raising `ε`. -/
def Handler (δ σ ε ρ : Type) : Type := Event δ → σ → σ × Except ε ρ

/-- Class `EventBus` of `event.py`: `_handlers` maps an event-type string to the
ordered list of handlers subscribed under it (a Python dict: keys unique,
lookup finds the entry); `_running` is carried but unused by the operations
specified here. -/
structure EventBus (δ σ ε ρ : Type) where
  handlers : List (String × List (Handler δ σ ε ρ))
  running : Bool := false

/-- Dict lookup `self._handlers.get(event_type, [])`: the handler list of the
first (unique) matching key, or `[]` when the key is absent. -/
def lookupHandlers {δ σ ε ρ : Type} :
    List (String × List (Handler δ σ ε ρ)) → String → List (Handler δ σ ε ρ)
  | [], _ => []
  | (k, hs) :: rest, t => if k = t then hs else lookupHandlers rest t

/-- Body of `EventBus.subscribe`: if the key is present, append the handler to
its list; otherwise create a fresh singleton entry. -/
def subscribeAux {δ σ ε ρ : Type} (t : String) (h : Handler δ σ ε ρ) :
    List (String × List (Handler δ σ ε ρ)) → List (String × List (Handler δ σ ε ρ))
  | [] => [(t, [h])]
  | (k, hs) :: rest =>
      if k = t then (k, hs ++ [h]) :: rest else (k, hs) :: subscribeAux t h rest

/-- Method `EventBus.subscribe(event_type, handler)`. -/
def EventBus.subscribe {δ σ ε ρ : Type} (bus : EventBus δ σ ε ρ) (t : String)
    (h : Handler δ σ ε ρ) : EventBus δ σ ε ρ :=
  { bus with handlers := subscribeAux t h bus.handlers }

/-- Method `EventBus.get_handlers(event_type)`. -/
def EventBus.get_handlers {δ σ ε ρ : Type} (bus : EventBus δ σ ε ρ) (t : String) :
    List (Handler δ σ ε ρ) :=
  lookupHandlers bus.handlers t

/-- The dispatch loop of `EventBus.publish`: invoke each handler in list order
(awaiting completion before moving on — sequential state threading); on success
append the result to `results`; on a raised exception print a diagnostic (not
part of the return value, so not modelled) and continue with the next handler.
The loop itself never raises, hence the total return type. -/
def runHandlers {δ σ ε ρ : Type} :
    List (Handler δ σ ε ρ) → Event δ → σ → σ × List ρ
  | [], _, s => (s, [])
  | h :: rest, e, s =>
      match h e s with
      | (s', Except.ok r) =>
          let q := runHandlers rest e s'
          (q.1, r :: q.2)
      | (s', Except.error _) => runHandlers rest e s'

/-- Method `EventBus.publish(event)`: look up the handlers registered for
`event.event_type` (absent key gives the empty list) and run the dispatch
loop. -/
def EventBus.publish {δ σ ε ρ : Type} (bus : EventBus δ σ ε ρ) (e : Event δ)
    (s : σ) : σ × List ρ :=
  runHandlers (lookupHandlers bus.handlers e.event_type) e s

/-- A never-raising handler built from a plain effectful function, used to
state the success case of dispatch. -/
def okHandler {δ σ ρ : Type} (ε : Type) (f : Event δ → σ → σ × ρ) : Handler δ σ ε ρ :=
  fun e s => ((f e s).1, Except.ok (f e s).2)

/-- Sequentially run plain effectful functions, collecting every value: the
reference behaviour of dispatch when no handler fails. -/
def runPure {δ σ ρ : Type} :
    List (Event δ → σ → σ × ρ) → Event δ → σ → σ × List ρ
  | [], _, s => (s, [])
  | f :: rest, e, s =>
      let p := f e s
      let q := runPure rest e p.1
      (q.1, p.2 :: q.2)

/-- Wrap the handlers of a list so that, besides its original effect, the
handler at position `i` (counting from the first argument) records `i` in an
invocation log carried alongside the state. Used to observe which handlers a
dispatch invokes and in which order. -/
def instrumentHandlers {δ σ ε ρ : Type} :
    Nat → List (Handler δ σ ε ρ) → List (Handler δ (σ × List Nat) ε ρ)
  | _, [] => []
  | i, h :: rest =>
      (fun e sl =>
        match h e sl.1 with
        | (s', r) => ((s', sl.2 ++ [i]), r)) :: instrumentHandlers (i + 1) rest

/-- The list `[i, i+1, ..., i+n-1]`: the expected invocation log of `n`
handlers numbered from `i`. -/
def rangeFrom : Nat → Nat → List Nat
  | _, 0 => []
  | i, n + 1 => i :: rangeFrom (i + 1) n

/-- Class `PipelineStage` of `pipeline.py`: a diagnostic `name`, a `handler`
(callable `data -> data'`, possibly raising, with world-state effects), and an
optional `condition` (callable `data -> bool`, evaluated on the current data,
itself allowed to raise). -/
structure PipelineStage (δ σ ε : Type) where
  name : String
  handler : δ → σ → σ × Except ε δ
  condition : Option (δ → σ → σ × Except ε Bool) := none

/-- Method `PipelineStage.execute(data)`: when a condition is present and evaluates
false, return the data unchanged without touching the handler; otherwise call
the handler (awaiting it if asynchronous). A raise in the condition or the
handler propagates — there is no try block here. -/
def PipelineStage.execute {δ σ ε : Type} (st : PipelineStage δ σ ε) (d : δ)
    (s : σ) : σ × Except ε δ :=
  match st.condition with
  | none => st.handler d s
  | some c =>
      match c d s with
      | (s', Except.error err) => (s', Except.error err)
      | (s', Except.ok b) => if b then st.handler d s' else (s', Except.ok d)

/-- Class `Pipeline` of `pipeline.py`: a name and the ordered stage list. -/
structure Pipeline (δ σ ε : Type) where
  name : String
  stages : List (PipelineStage δ σ ε)

/-- Method `Pipeline.add_stage(name, handler, condition)`: append a stage and return
the pipeline for chaining. -/
def Pipeline.add_stage {δ σ ε : Type} (p : Pipeline δ σ ε) (name : String)
    (handler : δ → σ → σ × Except ε δ)
    (condition : Option (δ → σ → σ × Except ε Bool) := none) : Pipeline δ σ ε :=
  { p with stages := p.stages ++ [⟨name, handler, condition⟩] }

/-- The loop of `Pipeline.execute`: thread the data through the stages in list
order; a raise in any stage aborts the loop immediately and propagates. -/
def runStages {δ σ ε : Type} :
    List (PipelineStage δ σ ε) → δ → σ → σ × Except ε δ
  | [], d, s => (s, Except.ok d)
  | st :: rest, d, s =>
      match st.execute d s with
      | (s', Except.error err) => (s', Except.error err)
      | (s', Except.ok d') => runStages rest d' s'

/-- Method `Pipeline.execute(initial_data)`. -/
def Pipeline.execute {δ σ ε : Type} (p : Pipeline δ σ ε) (d : δ) (s : σ) :
    σ × Except ε δ :=
  runStages p.stages d s

/-!
`PipelineBuilder` manipulates a Python list object through its reference, so
object identity matters and the builder/pipeline pair is embedded with an
explicit heap of list objects: a reference is an index into `heap`, and every
`list` literal evaluated by the Python code allocates a fresh entry.
-/

/-- The heap of stage-list objects live in the interpreter. -/
abbrev StageHeap (δ σ ε : Type) : Type := List (List (PipelineStage δ σ ε))

/-- Class `PipelineBuilder` object of `pipeline.py`: its `name` and the reference
`_stages` to its heap-allocated stage list. -/
structure PipelineBuilder where
  name : String
  stagesRef : Nat

/-- A built `Pipeline` object as it lives at runtime: its `name` and the
reference its `stages` attribute holds. -/
structure PipelineObj where
  name : String
  stagesRef : Nat

/-- Constructor `PipelineBuilder.__init__(name)`: allocate the empty `_stages` list. -/
def builderNew {δ σ ε : Type} (name : String) (heap : StageHeap δ σ ε) :
    PipelineBuilder × StageHeap δ σ ε :=
  ({ name := name, stagesRef := heap.length }, heap ++ [[]])

/-- Method `PipelineBuilder.stage(name, handler)`: append
`PipelineStage(name=name, handler=handler)` (no condition) to the list object
`_stages` refers to, in place, and return the builder itself. -/
def PipelineBuilder.stage {δ σ ε : Type} (b : PipelineBuilder) (nm : String)
    (handler : δ → σ → σ × Except ε δ) (heap : StageHeap δ σ ε) :
    PipelineBuilder × StageHeap δ σ ε :=
  (b, heap.set b.stagesRef (heap.getD b.stagesRef [] ++ [⟨nm, handler, none⟩]))

/-- Method `PipelineBuilder.build()`: `Pipeline(name=self.name)` allocates a fresh
empty stage list for the new pipeline, and `pipeline.stages = self._stages`
then rebinds the pipeline's attribute to the builder's own list object — the
freshly allocated list becomes garbage and the two objects share one list. -/
def PipelineBuilder.build {δ σ ε : Type} (b : PipelineBuilder)
    (heap : StageHeap δ σ ε) : PipelineObj × StageHeap δ σ ε :=
  ({ name := b.name, stagesRef := b.stagesRef }, heap ++ [[]])

/-- Reading `pipeline.stages` of a built pipeline. -/
def PipelineObj.stagesVal {δ σ ε : Type} (p : PipelineObj)
    (heap : StageHeap δ σ ε) : List (PipelineStage δ σ ε) :=
  heap.getD p.stagesRef []

/-- Python runtime values flowing through `Stream.flat_map`, restricted to the
shapes the design distinguishes: integers (a non-iterable scalar), text,
byte-sequences, and list containers. -/
inductive PyVal where
  | int (n : Int)
  | str (s : String)
  | bytes (b : List Nat)
  | list (elems : List PyVal)

/-- Test `hasattr(r, __iter__)`: lists, strings and bytes are iterable; an
integer is not. -/
def PyVal.hasIter : PyVal → Bool
  | .int _ => false
  | .str _ => true
  | .bytes _ => true
  | .list _ => true

/-- Test `isinstance(r, (str, bytes))`. -/
def PyVal.isStrOrBytes : PyVal → Bool
  | .str _ => true
  | .bytes _ => true
  | _ => false

/-- The element sequence `list.extend` traverses: the elements of a list, the
one-character strings of a string, the integers of a byte-sequence. (In
`flat_map` only the list case is reachable: strings and bytes are excluded by
the `isinstance` test and an integer by the `hasattr` test.) -/
def PyVal.elems : PyVal → List PyVal
  | .int _ => []
  | .str s => s.data.map (fun c => PyVal.str (String.mk [c]))
  | .bytes b => b.map (fun n => PyVal.int (Int.ofNat n))
  | .list xs => xs

/-- The `Stream` class of `stream.py`: a fully materialized element
sequence. -/
structure Stream (α : Type) where
  _data : List α

/-- Constructor `Stream.__init__(data=None)`: `self._data = data or []` — an absent or
`None` argument becomes the empty sequence, and a falsy (empty) sequence is
likewise replaced by a fresh empty list. -/
def Stream.init {α : Type} (data : Option (List α)) : Stream α :=
  match data with
  | none => ⟨[]⟩
  | some l => ⟨if l.isEmpty then [] else l⟩

/-- Method `Stream.map(func)`: the comprehension `[func(x) for x in self._data]`
wrapped in a new Stream. -/
def Stream.map {α β : Type} (s : Stream α) (func : α → β) : Stream β :=
  ⟨s._data.map func⟩

/-- Method `Stream.filter(predicate)`: the comprehension
`[x for x in self._data if predicate(x)]` wrapped in a new Stream. -/
def Stream.filter {α : Type} (s : Stream α) (predicate : α → Bool) : Stream α :=
  ⟨s._data.filter predicate⟩

/-- The loop of `Stream.flat_map`: `result` starts empty; for each element
`x`, `r = func(x)` is `extend`ed into `result` when it is iterable and not a
string/bytes, and `append`ed as a single element otherwise. -/
def flatMapLoop (func : PyVal → PyVal) : List PyVal → List PyVal → List PyVal
  | acc, [] => acc
  | acc, x :: rest =>
      let r := func x
      if r.hasIter && !r.isStrOrBytes then flatMapLoop func (acc ++ r.elems) rest
      else flatMapLoop func (acc ++ [r]) rest

/-- Method `Stream.flat_map(func)`. -/
def Stream.flat_map (s : Stream PyVal) (func : PyVal → PyVal) : Stream PyVal :=
  ⟨flatMapLoop func [] s._data⟩

/-- Method `Stream.collect()`: returns `self._data` (the await point is vacuous — the
data is already materialized). -/
def Stream.collect {α : Type} (s : Stream α) : List α :=
  s._data

/-- Method `Stream.__iter__`: traversal always starts from the full sequence. -/
def Stream.iter {α : Type} (s : Stream α) : List α :=
  s._data

/-- One-sentence description of each `func(x)` expansion, written from the
spec: an iterable container that is not text or a byte-sequence contributes
its elements individually in their own order, anything else contributes itself
as a single element. The loop of the source is proved equal to one level of
`flatMap` over this expansion. -/
def flatMapSpecExpand (func : PyVal → PyVal) (x : PyVal) : List PyVal :=
  if (func x).hasIter && !(func x).isStrOrBytes then (func x).elems else [func x]

/-- A stream processor / sink callable for the driver: acts on the world state
and may raise. -/
def Proc (δ σ ε : Type) : Type := δ → σ → σ × Except ε δ

/-- A `Sink.consume` capability: consumes one item, no return value, may
raise. -/
def SinkFn (δ σ ε : Type) : Type := δ → σ → σ × Except ε Unit

/-- The inner loop of `process_stream`: thread one item through the processors
in list order, awaiting each; a raise propagates. -/
def procChain {δ σ ε : Type} :
    List (Proc δ σ ε) → δ → σ → σ × Except ε δ
  | [], d, s => (s, Except.ok d)
  | p :: rest, d, s =>
      match p d s with
      | (s', Except.error err) => (s', Except.error err)
      | (s', Except.ok d') => procChain rest d' s'

/-- The body of `process_stream`'s `async for` for one source item: run the
processor chain, then `await sink.consume(data)` when a sink is supplied; the
fully transformed item is the value to be accumulated. -/
def itemRun {δ σ ε : Type} (ps : List (Proc δ σ ε)) (osink : Option (SinkFn δ σ ε))
    (x : δ) (s : σ) : σ × Except ε δ :=
  match procChain ps x s with
  | (s', Except.error err) => (s', Except.error err)
  | (s', Except.ok y) =>
      match osink with
      | none => (s', Except.ok y)
      | some k =>
          match k y s' with
          | (s'', Except.error err) => (s'', Except.error err)
          | (s'', Except.ok _) => (s'', Except.ok y)

/-- Function `process_stream(source, *processors, sink=None)`: iterate the items the
source yields in production order; per item run the processors then the
optional sink delivery, append the transformed item to `results`; a raise
anywhere aborts the whole call; the accumulated results are returned once the
source is exhausted. -/
def process_stream {δ σ ε : Type} (items : List δ) (ps : List (Proc δ σ ε))
    (osink : Option (SinkFn δ σ ε)) (s : σ) : σ × Except ε (List δ) :=
  match items with
  | [] => (s, Except.ok [])
  | x :: rest =>
      match itemRun ps osink x s with
      | (s', Except.error err) => (s', Except.error err)
      | (s', Except.ok y) =>
          match process_stream rest ps osink s' with
          | (s'', Except.error err) => (s'', Except.error err)
          | (s'', Except.ok rs) => (s'', Except.ok (y :: rs))

/-- Observable driver events for instrumented runs: the call of processor `i`
on a given input, or a sink delivery of a value. -/
inductive StreamEv (δ : Type) where
  | procCall (i : Nat) (input : δ)
  | sinkRecv (v : δ)

/-- A pure data transformation lifted to a processor that also logs its own
call, tagged with its position `i` in the processor list. -/
def instrProc {δ ε : Type} (i : Nat) (f : δ → δ) : Proc δ (List (StreamEv δ)) ε :=
  fun d log => (log ++ [StreamEv.procCall i d], Except.ok (f d))

/-- Instrument a whole list of pure transformations, numbering them from
`i`. -/
def instrumentProcs {δ ε : Type} :
    Nat → List (δ → δ) → List (Proc δ (List (StreamEv δ)) ε)
  | _, [] => []
  | i, f :: rest => instrProc i f :: instrumentProcs (i + 1) rest

/-- A capturing sink: records every value it is given, in delivery order. -/
def captureSink {δ ε : Type} : SinkFn δ (List (StreamEv δ)) ε :=
  fun d log => (log ++ [StreamEv.sinkRecv d], Except.ok ())

/-- Left-to-right application of a transformation chain to one value. -/
def chainApply {δ : Type} (fs : List (δ → δ)) (x : δ) : δ :=
  fs.foldl (fun a f => f a) x

/-- The expected log of threading one value through the chain: processor `i`
sees the value produced by processors before it. -/
def chainTrace {δ : Type} : Nat → List (δ → δ) → δ → List (StreamEv δ)
  | _, [], _ => []
  | i, f :: rest, x => StreamEv.procCall i x :: chainTrace (i + 1) rest (f x)

/-- The expected full log of a driver run with a capturing sink: per item, in
source order, all of its processor calls followed by its sink delivery. -/
def driverTrace {δ : Type} (fs : List (δ → δ)) (items : List δ) :
    List (StreamEv δ) :=
  items.flatMap (fun x => chainTrace 0 fs x ++ [StreamEv.sinkRecv (chainApply fs x)])

/-- The expected full log without a sink: only the processor calls. -/
def driverTraceNoSink {δ : Type} (fs : List (δ → δ)) (items : List δ) :
    List (StreamEv δ) :=
  items.flatMap (fun x => chainTrace 0 fs x)

/-- Concrete handler: increments a counter state and returns `data + 1`. -/
def h1C1 : Handler Nat Nat String Nat :=
  fun e s => (s + 1, Except.ok (e.data + 1))

/-- Concrete handler that always raises. -/
def hBadC1 : Handler Nat Nat String Nat :=
  fun _ s => (s, Except.error "boom")

/-- Concrete handler: adds ten to the counter state and returns `data + 3`. -/
def h3C1 : Handler Nat Nat String Nat :=
  fun e s => (s + 10, Except.ok (e.data + 3))

/-- A bus with three handlers subscribed under type t, the middle one failing. -/
def busC1 : EventBus Nat Nat String Nat :=
  (((EventBus.mk [] false).subscribe "t" h1C1).subscribe "t" hBadC1).subscribe "t" h3C1

/-- The event published in the dispatch example. -/
def evC1 : Event Nat :=
  { event_type := "t", data := 42 }

/-- Stage A of the abort example: `data + 1`, no state effect. -/
def stageA : PipelineStage Nat Nat String :=
  ⟨"A", fun d s => (s, Except.ok (d + 1)), none⟩

/-- Stage B of the abort example: always raises. -/
def stageB : PipelineStage Nat Nat String :=
  ⟨"B", fun _ s => (s, Except.error "bee"), none⟩

/-- Stage C of the abort example: bumps a side-effect counter in the state. -/
def stageC : PipelineStage Nat Nat String :=
  ⟨"C", fun d s => (s + 1, Except.ok d), none⟩

/-- The pipeline [A, B, C] of the abort example. -/
def pipeC2 : Pipeline Nat Nat String :=
  ⟨"p", [stageA, stageB, stageC]⟩

/-- The conditional stage of the design's skip example: condition
`x -> x > 10`, handler `x -> x * 2`. -/
def stageC5 : PipelineStage Nat Nat String :=
  ⟨"cond", fun d s => (s, Except.ok (d * 2)),
    some (fun d s => (s, Except.ok (decide (10 < d))))⟩

/-- An unconditional doubling stage. -/
def stageC5nc : PipelineStage Nat Nat String :=
  ⟨"plain", fun d s => (s, Except.ok (d * 2)), none⟩

/-- A stage handler returning its input unchanged, used as an opaque payload
in the builder scenario. -/
def hIdNat : Nat → Nat → Nat × Except Unit Nat :=
  fun d s => (s, Except.ok d)

/-- Builder scenario, step 0: `b = PipelineBuilder(p)` on an empty heap. -/
def c4Step0 : PipelineBuilder × StageHeap Nat Nat Unit :=
  builderNew "p" []

/-- Builder scenario, step 1: `b.stage(a, hIdNat)`. -/
def c4Step1 : PipelineBuilder × StageHeap Nat Nat Unit :=
  c4Step0.1.stage "a" hIdNat c4Step0.2

/-- Builder scenario, step 2: `p = b.build()`. -/
def c4Step2 : PipelineObj × StageHeap Nat Nat Unit :=
  c4Step1.1.build c4Step1.2

/-- Builder scenario, step 3: `b.stage(b2, hIdNat)` after the build. -/
def c4Step3 : PipelineBuilder × StageHeap Nat Nat Unit :=
  c4Step1.1.stage "b" hIdNat c4Step2.2

/-- Driver processor 1 of the abort example: doubles the item, no log. -/
def p1C7 : Proc Nat (List (StreamEv Nat)) String :=
  fun d log => (log, Except.ok (d * 2))

/-- Driver processor 2 of the abort example: raises on the value 4 (the image
of source item 2 under processor 1), otherwise adds one. -/
def p2C7 : Proc Nat (List (StreamEv Nat)) String :=
  fun d log =>
    if d = 4 then (log, Except.error "boom") else (log, Except.ok (d + 1))

/-- Splitting the dispatch loop at a list concatenation: the first block runs
to completion, then the second block runs from the reached state, and the
result lists concatenate. -/
theorem runHandlers_append {δ σ ε ρ : Type} (as bs : List (Handler δ σ ε ρ))
    (e : Event δ) (s : σ) :
    runHandlers (as ++ bs) e s =
      ((runHandlers bs e (runHandlers as e s).1).1,
        (runHandlers as e s).2 ++ (runHandlers bs e (runHandlers as e s).1).2) := by
  induction as generalizing s with
  | nil => simp [runHandlers]
  | cons h rest ih =>
      simp only [List.cons_append, runHandlers]
      rcases hh : h e s with ⟨s', r⟩
      cases r with
      | ok v => simp [runHandlers, hh, ih]
      | error err => simp [runHandlers, hh, ih]

/-- C1: for every event and every list of handlers registered under its event
type, if the k-th handler raises during `EventBus.publish`, the bus catches
the failure and still invokes handlers k+1..n (from the state the failing
handler left behind), publish itself does not raise (its return type is
total), and the returned results sequence omits the failing handler's slot
while preserving the relative order of the results of the handlers that
succeeded. -/
theorem c1_publish_isolates_failures {δ σ ε ρ : Type} (bus : EventBus δ σ ε ρ)
    (e : Event δ) (s : σ) (pre : List (Handler δ σ ε ρ)) (h : Handler δ σ ε ρ)
    (post : List (Handler δ σ ε ρ)) (s1 : σ) (rs1 : List ρ) (s2 : σ) (err : ε)
    (hsplit : bus.get_handlers e.event_type = pre ++ h :: post)
    (hpre : runHandlers pre e s = (s1, rs1))
    (hfail : h e s1 = (s2, Except.error err)) :
    bus.publish e s =
      ((runHandlers post e s2).1, rs1 ++ (runHandlers post e s2).2) := by
  have hl : lookupHandlers bus.handlers e.event_type = pre ++ h :: post := hsplit
  unfold EventBus.publish
  rw [hl, runHandlers_append, hpre]
  simp [runHandlers, hfail]

/-- Witness for C1: on a bus with three handlers under type t whose middle
handler raises, publish returns the first and third results in order and the
third handler's state effect (adding ten) has happened. -/
theorem c1_witness : busC1.publish evC1 0 = (11, [43, 45]) := by
  have h := c1_publish_isolates_failures busC1 evC1 0 [h1C1] hBadC1 [h3C1]
    1 [43] 1 "boom" rfl rfl rfl
  exact h

/-- When a stage prefix succeeds, the stage loop on a concatenation continues
with the remaining stages from the produced data and state. -/
theorem runStages_append_ok {δ σ ε : Type} (as : List (PipelineStage δ σ ε))
    {bs : List (PipelineStage δ σ ε)} {d : δ} {s : σ} {s1 : σ} {d1 : δ}
    (h : runStages as d s = (s1, Except.ok d1)) :
    runStages (as ++ bs) d s = runStages bs d1 s1 := by
  induction as generalizing d s with
  | nil =>
      simp only [runStages] at h
      injection h with h1 h2
      injection h2 with h2
      simp [runStages, h1, h2]
  | cons st rest ih =>
      simp only [runStages] at h ⊢
      rcases hst : st.execute d s with ⟨s', r⟩
      cases r with
      | error err => rw [hst] at h; exact absurd h (by simp)
      | ok d' =>
          rw [hst] at h
          simpa using ih h

/-- C2: for every pipeline and every initial data value, if any stage's
handler or condition raises during `Pipeline.execute` (after an
error-free prefix of stages), then execute fails immediately with that same
failure, no later stage's condition or handler is invoked (the final state is
exactly the state at the moment of the failure, untouched by the stages after
the failing one), and no partial data value is returned to the caller. -/
theorem c2_pipeline_aborts_on_failure {δ σ ε : Type} (p : Pipeline δ σ ε)
    (pre : List (PipelineStage δ σ ε)) (stk : PipelineStage δ σ ε)
    (post : List (PipelineStage δ σ ε)) (d : δ) (s : σ) (s1 : σ) (d1 : δ)
    (s2 : σ) (err : ε)
    (hsplit : p.stages = pre ++ stk :: post)
    (hpre : runStages pre d s = (s1, Except.ok d1))
    (hfail : stk.execute d1 s1 = (s2, Except.error err)) :
    p.execute d s = (s2, Except.error err) := by
  unfold Pipeline.execute
  rw [hsplit, runStages_append_ok pre hpre]
  simp [runStages, hfail]

/-- Witness for C2: running [A, B, C] on input 3 with B raising fails with
B's failure and leaves C's side-effect counter at 0 (C never ran). -/
theorem c2_witness : pipeC2.execute 3 0 = (0, Except.error "bee") := by
  have h := c2_pipeline_aborts_on_failure pipeC2 [stageA] stageB [stageC]
    3 0 0 4 0 "bee" rfl rfl rfl
  exact h

/-- Subscribing appends the handler to the handler list of its event type. -/
theorem lookupHandlers_subscribeAux {δ σ ε ρ : Type}
    (m : List (String × List (Handler δ σ ε ρ))) (t : String)
    (h : Handler δ σ ε ρ) :
    lookupHandlers (subscribeAux t h m) t = lookupHandlers m t ++ [h] := by
  induction m with
  | nil => simp [subscribeAux, lookupHandlers]
  | cons kv rest ih =>
      rcases kv with ⟨k, hs⟩
      by_cases hk : k = t
      · simp [subscribeAux, lookupHandlers, hk]
      · simp [subscribeAux, lookupHandlers, hk, ih]

/-- The dispatch loop invokes the instrumented handlers exactly once each, in
list order, while computing the same state and results as the original
handlers. -/
theorem runHandlers_instrument {δ σ ε ρ : Type}
    (hs : List (Handler δ σ ε ρ)) (i : Nat) (e : Event δ) (s : σ)
    (log : List Nat) :
    runHandlers (instrumentHandlers i hs) e (s, log) =
      (((runHandlers hs e s).1, log ++ rangeFrom i hs.length),
        (runHandlers hs e s).2) := by
  induction hs generalizing i s log with
  | nil => simp [instrumentHandlers, runHandlers, rangeFrom]
  | cons h rest ih =>
      simp only [instrumentHandlers, runHandlers]
      rcases hh : h e s with ⟨s', r⟩
      cases r with
      | ok v =>
          simp [runHandlers, hh, ih, rangeFrom, List.append_assoc]
      | error err =>
          simp [runHandlers, hh, ih, rangeFrom, List.append_assoc]

/-- Dispatch over never-failing handlers collects every result in order. -/
theorem runHandlers_ok {δ σ ε ρ : Type}
    (fs : List (Event δ → σ → σ × ρ)) (e : Event δ) (s : σ) :
    runHandlers (fs.map (okHandler ε)) e s = runPure fs e s := by
  induction fs generalizing s with
  | nil => simp [runHandlers, runPure]
  | cons f rest ih => simp [runHandlers, runPure, okHandler, ih]

/-- C3: `subscribe` appends to the handler list of the event type, so
handlers subscribed in order H1..Hn stand in the list in that order; `publish`
dispatches exactly the handler list of the event's type; the dispatch loop
invokes each handler of that list exactly once, in list order, with each
invocation (synchronous or awaited asynchronous — one sequential call in the
cooperative model) fully completing and its state effect threaded before the
next handler runs; and when no handler fails the results list holds each
handler's result in that same order. -/
theorem c3_publish_order_and_results {δ σ ε ρ : Type} :
    (∀ (bus : EventBus δ σ ε ρ) (t : String) (h : Handler δ σ ε ρ),
        (bus.subscribe t h).get_handlers t = bus.get_handlers t ++ [h])
    ∧ (∀ (bus : EventBus δ σ ε ρ) (e : Event δ) (s : σ),
        bus.publish e s = runHandlers (bus.get_handlers e.event_type) e s)
    ∧ (∀ (hs : List (Handler δ σ ε ρ)) (e : Event δ) (s : σ) (log : List Nat),
        runHandlers (instrumentHandlers 0 hs) e (s, log) =
          (((runHandlers hs e s).1, log ++ rangeFrom 0 hs.length),
            (runHandlers hs e s).2))
    ∧ (∀ (fs : List (Event δ → σ → σ × ρ)) (e : Event δ) (s : σ),
        runHandlers (fs.map (okHandler ε)) e s = runPure fs e s) := by
  refine ⟨?_, ?_, ?_, ?_⟩
  · intro bus t h
    exact lookupHandlers_subscribeAux bus.handlers t h
  · intro bus e s
    rfl
  · intro hs e s log
    exact runHandlers_instrument hs 0 e s log
  · intro fs e s
    exact runHandlers_ok fs e s

/-- C4 (evaluated at the failing input): after `b = PipelineBuilder(p)`,
`b.stage(a, h)`, `p = b.build()`, the built pipeline has exactly the one stage named a
as the snapshot claim requires; but the later `b.stage(b2, h)` appends to the
very list object that `p.stages` shares with the builder, so the already-built
pipeline holds the two stages named a and b instead of the single stage a. -/
theorem c4_build_aliasing_code_bug :
    (c4Step2.1.stagesVal c4Step2.2).map PipelineStage.name = ["a"]
    ∧ (c4Step2.1.stagesVal c4Step3.2).map PipelineStage.name = ["a", "b"] :=
  ⟨rfl, rfl⟩

/-- C5: for every `PipelineStage` whose condition is present and evaluates
false on the current data, `PipelineStage.execute` returns the data value
unchanged and never invokes the stage's handler (the resulting state is
exactly the state the condition evaluation left — the handler contributed no
effect); when the condition is absent or evaluates true, the handler is
invoked and its return value replaces the data. -/
theorem c5_stage_conditional_skip {δ σ ε : Type} (st : PipelineStage δ σ ε)
    (d : δ) (s : σ) :
    (∀ (c : δ → σ → σ × Except ε Bool) (s' : σ), st.condition = some c →
        c d s = (s', Except.ok false) → st.execute d s = (s', Except.ok d))
    ∧ (st.condition = none → st.execute d s = st.handler d s)
    ∧ (∀ (c : δ → σ → σ × Except ε Bool) (s' : σ), st.condition = some c →
        c d s = (s', Except.ok true) → st.execute d s = st.handler d s') := by
  refine ⟨?_, ?_, ?_⟩
  · intro c s' hc hcv
    simp [PipelineStage.execute, hc, hcv]
  · intro hc
    simp [PipelineStage.execute, hc]
  · intro c s' hc hcv
    simp [PipelineStage.execute, hc, hcv]

/-- Witness for C5: the design's skip example — condition `x > 10`, handler
`x * 2` — leaves input 5 unchanged, doubles input 20, and an unconditional
doubling stage doubles input 7. -/
theorem c5_witness :
    stageC5.execute 5 0 = (0, Except.ok 5)
    ∧ stageC5.execute 20 0 = (0, Except.ok 40)
    ∧ stageC5nc.execute 7 0 = (0, Except.ok 14) := by
  refine ⟨?_, ?_, ?_⟩
  · exact (c5_stage_conditional_skip stageC5 5 0).1
      (fun d s => (s, Except.ok (decide (10 < d)))) 0 rfl rfl
  · exact (c5_stage_conditional_skip stageC5 20 0).2.2
      (fun d s => (s, Except.ok (decide (10 < d)))) 0 rfl rfl
  · exact (c5_stage_conditional_skip stageC5nc 7 0).2.1 rfl

/-- The processor chain over instrumented pure transformations logs one call
per processor, in list order, each seeing the value the processors before it
produced, and returns the chain's value without failing. -/
theorem procChain_instrument {δ ε : Type} (fs : List (δ → δ)) (i : Nat)
    (x : δ) (log : List (StreamEv δ)) :
    procChain (instrumentProcs i fs : List (Proc δ (List (StreamEv δ)) ε)) x log =
      (log ++ chainTrace i fs x, Except.ok (chainApply fs x)) := by
  induction fs generalizing i x log with
  | nil => simp [instrumentProcs, procChain, chainTrace, chainApply]
  | cons f rest ih =>
      simp [instrumentProcs, procChain, instrProc, chainTrace, chainApply,
        ih, List.append_assoc]

/-- Instrumented full driver run with a capturing sink: the log is, item by
item in source order, the item's processor calls followed by its sink
delivery, and the returned results are the chained values in source order. -/
theorem process_stream_instrument_sink {δ ε : Type} (items : List δ)
    (fs : List (δ → δ)) (log : List (StreamEv δ)) :
    process_stream items (instrumentProcs 0 fs)
        (some (captureSink : SinkFn δ (List (StreamEv δ)) ε)) log =
      (log ++ driverTrace fs items, Except.ok (items.map (chainApply fs))) := by
  induction items generalizing log with
  | nil => simp [process_stream, driverTrace]
  | cons x rest ih =>
      simp [process_stream, itemRun, procChain_instrument, captureSink,
        driverTrace, ih, List.append_assoc]

/-- Instrumented full driver run without a sink: the same results are
accumulated and the log holds only the processor calls, in the same order. -/
theorem process_stream_instrument_nosink {δ ε : Type} (items : List δ)
    (fs : List (δ → δ)) (log : List (StreamEv δ)) :
    process_stream items (instrumentProcs 0 fs)
        (none : Option (SinkFn δ (List (StreamEv δ)) ε)) log =
      (log ++ driverTraceNoSink fs items,
        Except.ok (items.map (chainApply fs))) := by
  induction items generalizing log with
  | nil => simp [process_stream, driverTraceNoSink]
  | cons x rest ih =>
      simp [process_stream, itemRun, procChain_instrument,
        driverTraceNoSink, ih, List.append_assoc]

/-- C6: `process_stream` handles the source's items in production order; each
item is threaded through every processor in list order (the logged call of
processor i+1 receives processor i's output); with a sink, the final
transformed item is delivered to the sink after that item's last processor
call and before the next item's first processor call; the final transformed
item is accumulated into the returned results whether or not a sink is
present; and the full ordered result sequence is returned once the source is
exhausted. -/
theorem c6_process_stream_ordering {δ ε : Type} (items : List δ)
    (fs : List (δ → δ)) :
    process_stream items (instrumentProcs 0 fs)
        (some (captureSink : SinkFn δ (List (StreamEv δ)) ε)) [] =
      (driverTrace fs items, Except.ok (items.map (chainApply fs)))
    ∧ process_stream items (instrumentProcs 0 fs)
        (none : Option (SinkFn δ (List (StreamEv δ)) ε)) [] =
      (driverTraceNoSink fs items, Except.ok (items.map (chainApply fs))) := by
  constructor
  · simpa using process_stream_instrument_sink items fs []
  · simpa using process_stream_instrument_nosink items fs []

/-- A driver run over a concatenated source splits: when the first block
succeeds, the run continues on the second block from the reached state, and
its results are prepended with the first block's results. -/
theorem process_stream_append {δ σ ε : Type} (as : List δ)
    {bs : List δ} {ps : List (Proc δ σ ε)} {osink : Option (SinkFn δ σ ε)}
    {s s1 : σ} {rs : List δ}
    (h : process_stream as ps osink s = (s1, Except.ok rs)) :
    process_stream (as ++ bs) ps osink s =
      ((process_stream bs ps osink s1).1,
        Except.map (fun l => rs ++ l) (process_stream bs ps osink s1).2) := by
  induction as generalizing s rs with
  | nil =>
      simp only [process_stream] at h
      injection h with h1 h2
      injection h2 with h2
      rw [List.nil_append, ← h1, ← h2]
      rcases hb : process_stream bs ps osink s with ⟨sb, rb⟩
      cases rb with
      | ok l => simp [Except.map]
      | error err => simp [Except.map]
  | cons a rest ih =>
      rw [List.cons_append]
      rcases ha : itemRun ps osink a s with ⟨sa, ra⟩
      cases ra with
      | error err =>
          simp only [process_stream, ha] at h
          simp at h
      | ok y =>
          simp only [process_stream, ha] at h ⊢
          rcases hr : process_stream rest ps osink sa with ⟨sb, rb⟩
          cases rb with
          | error err =>
              rw [hr] at h
              simp at h
          | ok l =>
              rw [hr] at h
              have h' : sb = s1 ∧ y :: l = rs := by simpa using h
              obtain ⟨h1, h2⟩ := h'
              subst h1
              rw [ih hr, ← h2]
              rcases hb : process_stream bs ps osink sb with ⟨sc, rc⟩
              cases rc with
              | ok l2 => simp [Except.map]
              | error err => simp [Except.map]

/-- C7: if a processor or the sink raises while `process_stream` is handling
some item (after a prefix of fully processed and delivered items), the entire
call fails with that failure, no later item is taken from the source or
delivered (the conclusion does not depend on the items after the failing
one), and the state reached — including the sink deliveries already made for
the earlier items — is exactly the state at the failure, with no rollback. -/
theorem c7_process_stream_abort {δ σ ε : Type} (pre : List δ) (x : δ)
    (post : List δ) (ps : List (Proc δ σ ε)) (osink : Option (SinkFn δ σ ε))
    (s s1 : σ) (rs : List δ) (s2 : σ) (err : ε)
    (hpre : process_stream pre ps osink s = (s1, Except.ok rs))
    (hfail : itemRun ps osink x s1 = (s2, Except.error err)) :
    process_stream (pre ++ x :: post) ps osink s = (s2, Except.error err) := by
  rw [process_stream_append pre hpre]
  simp [process_stream, hfail, Except.map]

/-- Witness for C7: source [1, 2, 3] through [double, fail-on-4] into a
capturing sink — item 1's delivery (of 3) has happened and is retained, the
call fails with the second processor's failure on item 2, and no event of
item 3 exists in the final state. -/
theorem c7_witness :
    process_stream [1, 2, 3] [p1C7, p2C7] (some captureSink) [] =
      ([StreamEv.sinkRecv 3], Except.error "boom") := by
  have h := c7_process_stream_abort [1] 2 [3] [p1C7, p2C7] (some captureSink)
    [] [StreamEv.sinkRecv 3] [3] [StreamEv.sinkRecv 3] "boom" rfl rfl
  exact h

/-- The imperative extend/append loop of `flat_map` computes one level of
`flatMap` over the spec's per-element expansion, after the accumulator. -/
theorem flatMapLoop_eq (func : PyVal → PyVal) (xs acc : List PyVal) :
    flatMapLoop func acc xs = acc ++ xs.flatMap (flatMapSpecExpand func) := by
  induction xs generalizing acc with
  | nil => simp [flatMapLoop]
  | cons x rest ih =>
      cases hcond : (func x).hasIter && !(func x).isStrOrBytes with
      | true =>
          simp [flatMapLoop, flatMapSpecExpand, hcond, ih, List.append_assoc]
      | false =>
          simp [flatMapLoop, flatMapSpecExpand, hcond, ih, List.append_assoc]

/-- C8: `flat_map(func)` applies `func` to every element in order; a result
that is an iterable container other than text/bytes contributes its elements
individually in their own order (one level of flattening), any other result
is appended as a single element; in particular `flat_map` with the identity
on the stream of the lists [1,2] and [3] yields the elements 1, 2, 3. -/
theorem c8_flat_map_one_level (func : PyVal → PyVal) (s : Stream PyVal) :
    (s.flat_map func)._data = s._data.flatMap (flatMapSpecExpand func)
    ∧ ((Stream.mk [PyVal.list [PyVal.int 1, PyVal.int 2],
          PyVal.list [PyVal.int 3]]).flat_map id)._data =
        [PyVal.int 1, PyVal.int 2, PyVal.int 3] := by
  constructor
  · simpa using flatMapLoop_eq func s._data []
  · rfl

/-- C9: for every stream and functions f and g, `map(f)` then `map(g)` yields
the same stream as one `map` of the composition; `map` sends the element
sequence to its image in order, preserving count, and builds a new Stream
value (the receiver, an immutable value here, is untouched). -/
theorem c9_map_map_compose {α β γ : Type} (s : Stream α) (f : α → β)
    (g : β → γ) :
    (s.map f).map g = s.map (fun x => g (f x))
    ∧ (s.map f)._data = s._data.map f
    ∧ (s.map f)._data.length = s._data.length := by
  refine ⟨?_, rfl, by simp [Stream.map]⟩
  simp [Stream.map]

/-- C10: a Stream constructed with no argument or with `None` behaves as the
empty stream: `map`, `filter` and `flat_map` on it produce streams with no
elements, `collect()` returns the empty list, and iterating it yields
nothing. -/
theorem c10_none_init_empty {α β : Type} (f : α → β) (p : α → Bool)
    (g : PyVal → PyVal) :
    ((Stream.init (none : Option (List α))).map f)._data = []
    ∧ ((Stream.init (none : Option (List α))).filter p)._data = []
    ∧ ((Stream.init (none : Option (List PyVal))).flat_map g)._data = []
    ∧ (Stream.init (none : Option (List α))).collect = []
    ∧ (Stream.init (none : Option (List α))).iter = [] :=
  ⟨rfl, rfl, rfl, rfl, rfl⟩

end EDP
